import Mathlib

/-!
Verification development for the coala execution core
(`coalib/core/Core.py`): dependency instantiation
(`initialize_dependencies`), the dependency tracker interface it uses,
task scheduling (`schedule_bears`), task completion handling
(`finish_task`) and file loading (`load_files`).

Python objects are embedded shallowly:

* A bear instance is a record of its identity (`bid`), its class (`ty`),
  its section and its file-dictionary; the two latter are opaque grouping
  keys and are embedded as naturals.  Object identity is `bid` together
  with the `fresh` flag (`fresh = true` marks instances constructed by
  the initializer, which are distinct from every caller-supplied seed).
* `DEPENDENCIES` is a class attribute, embedded as a function
  `typeEnv : Nat → List Nat` from a class to the list of its dependency
  classes.
* Python sets and dicts are embedded as lists; dict update overwrites,
  lookup returns the most recent binding.
* `set(bears)` iteration order is unspecified in Python, so functions
  that iterate such a set take the iteration order as an explicit list
  argument; universally quantified theorems therefore cover every
  possible iteration order.
-/

structure Bear where
  fresh : Bool
  bid : Nat
  ty : Nat
  sec : Nat
  fd : Nat
deriving DecidableEq

/-- Modelled from the spec: `DependencyTracker.get_dependencies(node)`
(`coalib/core/DependencyTracker.py` is not part of the sources) returns
the unresolved predecessors (dependencies) of `node`.  The tracker state
is the list of recorded edges `(dependency, dependant)`. -/
def getDeps (tr : List (Bear × Bear)) (n : Bear) : List Bear :=
  (tr.filter (fun e => decide (e.2 = n))).map (fun e => e.1)

def dedupAdd (acc : List Bear) (b : Bear) : List Bear :=
  if b ∈ acc then acc else acc ++ [b]

def dedupL (l : List Bear) : List Bear := l.foldl dedupAdd []

/-- Modelled from the spec: `DependencyTracker.get_all_dependencies()`
returns every node that some other node depends upon. -/
def allDeps (tr : List (Bear × Bear)) : List Bear :=
  dedupL (tr.map (fun e => e.1))

/-- Modelled from the spec: `DependencyTracker.resolve(p)` removes `p`
from every dependant's predecessor set and returns exactly the
dependants whose set became empty as a result of this call. -/
def resolveTracker (tr : List (Bear × Bear)) (p : Bear) :
    List (Bear × Bear) × List Bear :=
  let tr2 := tr.filter (fun e => decide (¬ (e.1 = p)))
  let cands := dedupL ((tr.filter (fun e => decide (e.1 = p))).map (fun e => e.2))
  (tr2, cands.filter (fun s => decide (getDeps tr2 s = [])))

/-- `itertools.groupby`: consecutive runs of equal keys (the source does
not sort the iterable first, so equal keys need not end up in one run). -/
def groupRunsAux (key : Bear → Nat × Nat) (k : Nat × Nat) (cur : List Bear)
    (acc : List ((Nat × Nat) × List Bear)) :
    List Bear → List ((Nat × Nat) × List Bear)
  | [] => acc ++ [(k, cur)]
  | b :: bs =>
    if key b = k then groupRunsAux key k (cur ++ [b]) acc bs
    else groupRunsAux key (key b) [b] (acc ++ [(k, cur)]) bs

def pyGroupby (key : Bear → Nat × Nat) :
    List Bear → List ((Nat × Nat) × List Bear)
  | [] => []
  | b :: bs => groupRunsAux key (key b) [b] [] bs

/-- Graph nodes seen by the dependency traversal: entry-point bear
instances (`Sum.inl`) and bear classes (`Sum.inr`). -/
abbrev GNode := Sum Bear Nat

def tyOfNode : GNode → Nat
  | Sum.inl b => b.ty
  | Sum.inr t => t

def lookupMap (m : List (GNode × Bear)) (k : GNode) : Option Bear :=
  match m with
  | [] => none
  | (k2, v) :: rest => if k2 = k then some v else lookupMap rest k

def defaultBear : Bear := ⟨true, 0, 0, 0, 0⟩

structure TravState where
  tmap : List (GNode × Bear)
  tracker : List (Bear × Bear)
  nextId : Nat
  created : List Bear
deriving DecidableEq

/-- `instantiate_and_track` from `initialize_dependencies`
(`Core.py:268`): instantiate the dependency class if no instance is in
the type-to-instance map yet, then record the edge in the tracker.
`created` logs every constructor call `next_bear_type(section, file_dict)`. -/
def visitEdge (sec fd : Nat) (prev : GNode) (nty : Nat) (st : TravState) :
    TravState :=
  let st2 :=
    if lookupMap st.tmap (Sum.inr nty) = none then
      let nb : Bear := ⟨true, st.nextId, nty, sec, fd⟩
      { st with tmap := (Sum.inr nty, nb) :: st.tmap,
                nextId := st.nextId + 1,
                created := st.created ++ [nb] }
    else st
  let dep := (lookupMap st2.tmap (Sum.inr nty)).getD defaultBear
  let dpt := (lookupMap st2.tmap prev).getD defaultBear
  { st2 with tracker := st2.tracker ++ [(dep, dpt)] }

/-- One neighbour of an expanded node in the graph traversal: skip the
edge if seen, else mark it seen, run the visitor, push the neighbour. -/
def seenHas : List (GNode × Nat) → GNode → Nat → Bool
  | [], _, _ => false
  | e :: rest, u, v => if e = (u, v) then true else seenHas rest u v

def expandStep (sec fd : Nat) (u : GNode)
    (acc : List (GNode × Nat) × List GNode × TravState) (v : Nat) :
    List (GNode × Nat) × List GNode × TravState :=
  if seenHas acc.1 u v then acc
  else ((u, v) :: acc.1, acc.2.1 ++ [Sum.inr v], visitEdge sec fd u v acc.2.2)

/-- Modelled from the spec: `traverse_graph` (`coalib/core/Graphs.py` is
not part of the sources) walks the graph from the seed frontier,
deduplicating on edges, invoking the visitor once per discovered edge
and pushing each new neighbour onto the frontier.  `fuel` bounds the
number of node expansions; the Python traversal terminates exactly when
the reachable class set is finite, and every theorem below holds for
every fuel. -/
def traverseAux (typeEnv : Nat → List Nat) (sec fd : Nat) :
    Nat → List (GNode × Nat) → List GNode → TravState → TravState
  | 0, _, _, st => st
  | _ + 1, _, [], st => st
  | fuel + 1, seen, u :: rest, st =>
    let r := (typeEnv (tyOfNode u)).foldl (expandStep sec fd u) (seen, [], st)
    traverseAux typeEnv sec fd fuel r.1 (rest ++ r.2.1) r.2.2

/-- The seeding loop of `initialize_dependencies` (`Core.py:264`): each
bear of the group is mapped to itself, and its class is mapped to it
(a later bear of the same class overwrites the earlier binding). -/
def seedStep (m : List (GNode × Bear)) (b : Bear) : List (GNode × Bear) :=
  (Sum.inr b.ty, b) :: (Sum.inl b, b) :: m

def seedMap (gs : List Bear) : List (GNode × Bear) :=
  gs.foldl seedStep []

structure InitAcc where
  tracker : List (Bear × Bear)
  nextId : Nat
  created : List Bear
deriving DecidableEq

/-- The per-group body of `initialize_dependencies` (`Core.py:253`). -/
def runGroup (typeEnv : Nat → List Nat) (fuel : Nat) (acc : InitAcc)
    (g : (Nat × Nat) × List Bear) : InitAcc :=
  let st0 : TravState := ⟨seedMap g.2, acc.tracker, acc.nextId, acc.created⟩
  let st := traverseAux typeEnv g.1.1 g.1.2 fuel [] (g.2.map Sum.inl) st0
  ⟨st.tracker, st.nextId, st.created⟩

structure InitResult where
  tracker : List (Bear × Bear)
  ready : List Bear
  created : List Bear
deriving DecidableEq

/-- The final phase of `initialize_dependencies` (`Core.py:282`): drop
every seed that still has dependencies, then add every tracked
dependency that has none itself. -/
def readyAdd (tr : List (Bear × Bear)) (acc : List Bear) (d : Bear) :
    List Bear :=
  if getDeps tr d = [] then (if d ∈ acc then acc else acc ++ [d]) else acc

def readyPhase (tr : List (Bear × Bear)) (bears : List Bear) : List Bear :=
  (allDeps tr).foldl (readyAdd tr)
    (bears.filter (fun b => decide (getDeps tr b = [])))

/-- `initialize_dependencies` (`Core.py:208`): group the (deduplicated)
seed set by `(section, file_dict)` with `itertools.groupby`, traverse
each group's dependency classes instantiating missing instances, then
compute the schedulable set.  `bears` is the iteration order of the
Python set of seeds. -/
def initialize_dependencies (typeEnv : Nat → List Nat) (fuel : Nat)
    (bears : List Bear) : InitResult :=
  let acc := (pyGroupby (fun b => (b.sec, b.fd)) bears).foldl
    (runGroup typeEnv fuel) ⟨[], 0, []⟩
  ⟨acc.tracker, readyPhase acc.tracker bears, acc.created⟩

/-! ## Scheduler and completion handler (`schedule_bears`, `finish_task`) -/

abbrev BTask := Nat

/-- The mutable state the event loop owns: the `running_tasks` dict, the
shared `dependency_tracker`, the trace of records passed to
`result_callback`, the bears warned about by `schedule_bears`, the count
of `logging.error` calls from `finish_task`, whether `event_loop.stop()`
was called, and the log of executor submissions. -/
structure SchedState where
  running : List (Bear × List BTask)
  tracker : List (Bear × Bear)
  sinkLog : List Nat
  warned : List Bear
  errors : Nat
  stopped : Bool
  submitted : List (Bear × BTask)
deriving DecidableEq

def lookupRun (r : List (Bear × List BTask)) (b : Bear) : Option (List BTask) :=
  match r with
  | [] => none
  | (k, v) :: rest => if k = b then some v else lookupRun rest b

/-- Dict assignment `running_tasks[bear] = tasks`. -/
def setRun (r : List (Bear × List BTask)) (b : Bear) (ts : List BTask) :
    List (Bear × List BTask) :=
  match r with
  | [] => [(b, ts)]
  | (k, v) :: rest => if k = b then (b, ts) :: rest else (k, v) :: setRun rest b ts

/-- Dict deletion `del running_tasks[bear]`. -/
def delRun (r : List (Bear × List BTask)) (b : Bear) : List (Bear × List BTask) :=
  r.filter (fun e => decide (¬ (e.1 = b)))

/-- The futures created for `bear.generate_tasks()`: `run_in_executor`
returns a fresh future per generated `(args, kwargs)` pair, so the task
set of a bear has one member per generated pair; tasks are embedded as
their indices. -/
def taskList (numTasks : Bear → Nat) (b : Bear) : List BTask :=
  List.range (numTasks b)

/-- `schedule_bears` (`Core.py:24`): for each bear, if the tracker still
reports dependencies, log a warning and hold the bear back; otherwise
submit its generated tasks to the executor and store the future set in
`running_tasks`. -/
def schedStep (numTasks : Bear → Nat) (st : SchedState) (b : Bear) :
    SchedState :=
  if getDeps st.tracker b = [] then
    { st with running := setRun st.running b (taskList numTasks b),
              submitted :=
                st.submitted ++ (taskList numTasks b).map (fun t => (b, t)) }
  else { st with warned := st.warned ++ [b] }

def schedule_bears (numTasks : Bear → Nat) (bears : List Bear)
    (st : SchedState) : SchedState :=
  bears.foldl (schedStep numTasks) st

/-- The outcome of one completed task: the result iterable it returned,
and `raisesAt = some k` when the task raised (`k = 0`) or the iteration
of its results through `result_callback` raised after `k` records. -/
structure Outcome where
  output : List Nat
  raisesAt : Option Nat
deriving DecidableEq

/-- The records that reach `result_callback` inside the `try` block of
`finish_task` before any exception. -/
def deliveredOf (o : Outcome) : List Nat :=
  match o.raisesAt with
  | none => o.output
  | some k => o.output.take k

/-- `finish_task` (`Core.py:73`): deliver the task's results to the
result callback, catching and logging any exception; then (in the
`finally` block) remove the task from `running_tasks[bear]`, and if the
bear has no tasks left resolve it, schedule any freed bears and delete
its entry; finally stop the event loop if `running_tasks` is empty. -/
def finish_task (numTasks : Bear → Nat) (b : Bear) (t : BTask) (o : Outcome)
    (st : SchedState) : SchedState :=
  let st1 := { st with sinkLog := st.sinkLog ++ deliveredOf o,
                       errors := st.errors + (if o.raisesAt = none then 0 else 1) }
  let ts := ((lookupRun st1.running b).getD []).erase t
  let st2 := { st1 with running := setRun st1.running b ts }
  let st3 : SchedState :=
    if ts = [] then
      let rr := resolveTracker st2.tracker b
      let st2a := { st2 with tracker := rr.1 }
      let st2b := if rr.2 = [] then st2a else schedule_bears numTasks rr.2 st2a
      { st2b with running := delRun st2b.running b }
    else st2
  if st3.running = [] then { st3 with stopped := true } else st3

structure Completion where
  cb : Bear
  ct : BTask
  out : Outcome
deriving DecidableEq

/-- A session tail: the completion handler applied to a sequence of task
completions in the order the event loop delivers them. -/
def doCompletion (numTasks : Bear → Nat) (st : SchedState) (c : Completion) :
    SchedState :=
  finish_task numTasks c.cb c.ct c.out st

def runSession (numTasks : Bear → Nat) (cs : List Completion)
    (st : SchedState) : SchedState :=
  cs.foldl (doCompletion numTasks) st

/-! ## File loading (`load_files`) -/

def lookupFile (m : List (Nat × List Nat)) (k : Nat) : Option (List Nat) :=
  match m with
  | [] => none
  | (k2, v) :: rest => if k2 = k then some v else lookupFile rest k

/-- The state of `load_files`: the result dict `section_to_file_dict`,
the cross-section cache `master_file_dict`, the `corrupt_files` set, and
a log of every `open` call actually attempted. -/
structure LoadState where
  sectionToFileDict : List (Nat × List (Nat × List Nat))
  masterFileDict : List (Nat × List Nat)
  corruptFiles : List Nat
  attempts : List Nat
deriving DecidableEq

/-- The body of the filename loop of `load_files` (`Core.py:179`).
`fileRead f` is `some lines` when opening and reading `f` succeeds and
`none` when it raises `UnicodeDecodeError` or `OSError`; the second
component of the accumulator is the per-section `file_dict`. -/
def processFile (fileRead : Nat → Option (List Nat))
    (acc : LoadState × List (Nat × List Nat)) (f : Nat) :
    LoadState × List (Nat × List Nat) :=
  match lookupFile acc.1.masterFileDict f with
  | some lines => (acc.1, acc.2 ++ [(f, lines)])
  | none =>
    if f ∈ acc.1.corruptFiles then acc
    else
      match fileRead f with
      | some lines =>
        ({ acc.1 with masterFileDict := acc.1.masterFileDict ++ [(f, lines)],
                      attempts := acc.1.attempts ++ [f] },
         acc.2 ++ [(f, lines)])
      | none =>
        ({ acc.1 with corruptFiles := acc.1.corruptFiles ++ [f],
                      attempts := acc.1.attempts ++ [f] }, acc.2)

/-- One section iteration of `load_files` (`Core.py:174`): build the
per-section `file_dict` from the section's filenames.  The source never
stores that `file_dict` into `section_to_file_dict`, so it is dropped
here exactly as in the source. -/
def processSection (sectionFiles : Nat → List Nat)
    (fileRead : Nat → Option (List Nat)) (st : LoadState) (sec : Nat) :
    LoadState :=
  ((sectionFiles sec).foldl (processFile fileRead) (st, [])).1

/-- `load_files` (`Core.py:153`): iterate the bears grouped by section
with `itertools.groupby` and load each section's filenames.
`sectionFiles` embeds `get_filenames_from_section` (an external
collaborator) and `fileRead` the file system. -/
def load_files (sectionFiles : Nat → List Nat)
    (fileRead : Nat → Option (List Nat)) (bears : List Bear) : LoadState :=
  ((pyGroupby (fun b => (b.sec, 0)) bears).map (fun g => g.1.1)).foldl
    (processSection sectionFiles fileRead) ⟨[], [], [], []⟩

/-! ## Basic lemmas about the embedded containers -/

theorem mem_foldl_dedupAdd (l : List Bear) :
    ∀ (acc : List Bear) (x : Bear),
      x ∈ l.foldl dedupAdd acc ↔ x ∈ acc ∨ x ∈ l := by
  induction l with
  | nil => simp
  | cons a l ih =>
    intro acc x
    simp only [List.foldl_cons, ih, dedupAdd]
    by_cases h : a ∈ acc <;> by_cases hx : x = a <;>
      simp_all [List.mem_append, List.mem_cons] <;> tauto

theorem mem_dedupL (l : List Bear) (x : Bear) : x ∈ dedupL l ↔ x ∈ l := by
  simp [dedupL, mem_foldl_dedupAdd]

theorem mem_allDeps (tr : List (Bear × Bear)) (x : Bear) :
    x ∈ allDeps tr ↔ ∃ e ∈ tr, e.1 = x := by
  simp [allDeps, mem_dedupL]

theorem mem_readyFold (tr : List (Bear × Bear)) (ds : List Bear) :
    ∀ (acc : List Bear) (x : Bear),
      x ∈ ds.foldl (readyAdd tr) acc ↔
        x ∈ acc ∨ (x ∈ ds ∧ getDeps tr x = []) := by
  induction ds with
  | nil => simp
  | cons d ds ih =>
    intro acc x
    simp only [List.foldl_cons, ih, readyAdd]
    by_cases hd : getDeps tr d = [] <;> by_cases hx : x = d <;>
      by_cases hm : d ∈ acc <;> (try subst hx) <;>
      simp_all [List.mem_append, List.mem_cons] <;> (try tauto)

theorem mem_readyPhase (tr : List (Bear × Bear)) (bs : List Bear) (x : Bear) :
    x ∈ readyPhase tr bs ↔
      ((x ∈ bs ∧ getDeps tr x = []) ∨
       (x ∈ allDeps tr ∧ getDeps tr x = [])) := by
  simp only [readyPhase, mem_readyFold, List.mem_filter, decide_eq_true_eq]
  (try tauto)

/-- C2: for every input set of seed units (in any iteration order) and
any traversal fuel, the schedulable set returned by
`initialize_dependencies` equals the seeds minus every seed with a
non-empty unresolved-predecessor set, unioned with every node in
`get_all_dependencies()` whose own unresolved-predecessor set is empty. -/
theorem c2_ready_set_characterization (typeEnv : Nat → List Nat) (fuel : Nat)
    (bears : List Bear) (x : Bear) :
    x ∈ (initialize_dependencies typeEnv fuel bears).ready ↔
      ((x ∈ bears ∧
        getDeps (initialize_dependencies typeEnv fuel bears).tracker x = []) ∨
       (x ∈ allDeps (initialize_dependencies typeEnv fuel bears).tracker ∧
        getDeps (initialize_dependencies typeEnv fuel bears).tracker x = [])) := by
  simp only [initialize_dependencies, mem_readyPhase]

theorem lookupRun_setRun_self (r : List (Bear × List BTask)) (b : Bear)
    (ts : List BTask) : lookupRun (setRun r b ts) b = some ts := by
  induction r with
  | nil => simp [setRun, lookupRun]
  | cons e r ih =>
    by_cases h : e.1 = b <;> simp_all [setRun, lookupRun]

theorem lookupRun_setRun_other (r : List (Bear × List BTask)) (a b : Bear)
    (ts : List BTask) (h : a ≠ b) :
    lookupRun (setRun r b ts) a = lookupRun r a := by
  induction r with
  | nil => simp [setRun, lookupRun, h, Ne.symm h]
  | cons e r ih =>
    by_cases he : e.1 = b <;> by_cases ha : e.1 = a <;>
      simp_all [setRun, lookupRun, Ne.symm h]

theorem lookupRun_delRun_self (r : List (Bear × List BTask)) (b : Bear) :
    lookupRun (delRun r b) b = none := by
  induction r with
  | nil => simp [delRun, lookupRun]
  | cons e r ih =>
    by_cases h : e.1 = b <;> simp_all [delRun, lookupRun, List.filter]

theorem lookupRun_delRun_other (r : List (Bear × List BTask)) (a b : Bear)
    (h : a ≠ b) : lookupRun (delRun r b) a = lookupRun r a := by
  induction r with
  | nil => simp [delRun, lookupRun]
  | cons e r ih =>
    by_cases he : e.1 = b <;> by_cases ha : e.1 = a <;>
      simp_all [delRun, lookupRun, List.filter]

theorem schedStep_tracker (N : Bear → Nat) (st : SchedState) (b : Bear) :
    (schedStep N st b).tracker = st.tracker := by
  by_cases h : getDeps st.tracker b = [] <;> simp [schedStep, h]

theorem sched_tracker (N : Bear → Nat) (bs : List Bear) (st : SchedState) :
    (schedule_bears N bs st).tracker = st.tracker := by
  induction bs generalizing st with
  | nil => simp [schedule_bears]
  | cons a bs ih =>
    simp only [schedule_bears, List.foldl_cons] at *
    rw [ih, schedStep_tracker]

theorem sched_sinkLog (N : Bear → Nat) (bs : List Bear) (st : SchedState) :
    (schedule_bears N bs st).sinkLog = st.sinkLog := by
  induction bs generalizing st with
  | nil => simp [schedule_bears]
  | cons a bs ih =>
    simp only [schedule_bears, List.foldl_cons] at *
    rw [ih]
    by_cases h : getDeps st.tracker a = [] <;> simp [schedStep, h]

theorem sched_errors (N : Bear → Nat) (bs : List Bear) (st : SchedState) :
    (schedule_bears N bs st).errors = st.errors := by
  induction bs generalizing st with
  | nil => simp [schedule_bears]
  | cons a bs ih =>
    simp only [schedule_bears, List.foldl_cons] at *
    rw [ih]
    by_cases h : getDeps st.tracker a = [] <;> simp [schedStep, h]

theorem sched_stopped (N : Bear → Nat) (bs : List Bear) (st : SchedState) :
    (schedule_bears N bs st).stopped = st.stopped := by
  induction bs generalizing st with
  | nil => simp [schedule_bears]
  | cons a bs ih =>
    simp only [schedule_bears, List.foldl_cons] at *
    rw [ih]
    by_cases h : getDeps st.tracker a = [] <;> simp [schedStep, h]

theorem sched_warned_mono (N : Bear → Nat) (bs : List Bear) (st : SchedState)
    (w : Bear) (h : w ∈ st.warned) : w ∈ (schedule_bears N bs st).warned := by
  induction bs generalizing st with
  | nil => simpa [schedule_bears] using h
  | cons a bs ih =>
    simp only [schedule_bears, List.foldl_cons] at *
    apply ih
    by_cases ha : getDeps st.tracker a = [] <;>
      simp [schedStep, ha, List.mem_append, h]

theorem filter_map_pair_ne (a b : Bear) (l : List BTask) (h : ¬ (a = b)) :
    (l.map (fun t => (a, t))).filter (fun e => decide (e.1 = b)) = [] := by
  induction l with
  | nil => simp
  | cons t l ih => simp [List.filter, h, ih]

theorem sched_lookup_withdeps (N : Bear → Nat) (bs : List Bear)
    (st : SchedState) (b : Bear) (h : ¬ (getDeps st.tracker b = [])) :
    lookupRun (schedule_bears N bs st).running b = lookupRun st.running b := by
  induction bs generalizing st with
  | nil => simp [schedule_bears]
  | cons a bs ih =>
    simp only [schedule_bears, List.foldl_cons] at *
    have htr := schedStep_tracker N st a
    rw [ih _ (by rw [htr]; exact h)]
    by_cases ha : getDeps st.tracker a = []
    · have hab : ¬ (a = b) := fun he => h (he ▸ ha)
      simp [schedStep, ha, lookupRun_setRun_other _ _ _ _ (Ne.symm hab)]
    · simp [schedStep, ha]

theorem sched_submitted_withdeps (N : Bear → Nat) (bs : List Bear)
    (st : SchedState) (b : Bear) (h : ¬ (getDeps st.tracker b = [])) :
    ((schedule_bears N bs st).submitted).filter (fun e => decide (e.1 = b)) =
      st.submitted.filter (fun e => decide (e.1 = b)) := by
  induction bs generalizing st with
  | nil => simp [schedule_bears]
  | cons a bs ih =>
    simp only [schedule_bears, List.foldl_cons] at *
    have htr := schedStep_tracker N st a
    rw [ih _ (by rw [htr]; exact h)]
    by_cases ha : getDeps st.tracker a = []
    · have hab : ¬ (a = b) := fun he => h (he ▸ ha)
      simp [schedStep, ha, List.filter_append, filter_map_pair_ne a b _ hab]
    · simp [schedStep, ha]

theorem sched_warned_of_withdeps (N : Bear → Nat) (bs : List Bear)
    (st : SchedState) (b : Bear) (hm : b ∈ bs)
    (h : ¬ (getDeps st.tracker b = [])) :
    b ∈ (schedule_bears N bs st).warned := by
  induction bs generalizing st with
  | nil => cases hm
  | cons a bs ih =>
    simp only [schedule_bears, List.foldl_cons] at *
    rcases List.mem_cons.mp hm with hba | hbs
    · subst hba
      apply sched_warned_mono
      simp [schedStep, h, List.mem_append]
    · exact ih (schedStep N st a) hbs (by rw [schedStep_tracker]; exact h)

/-- C8: a bear handed to `schedule_bears` whose dependencies are still
unresolved is held back: it is logged in a warning, none of its tasks
are submitted to the executor, and its entry in the running map is
untouched by the call. -/
theorem c8_unresolved_deps_skipped (N : Bear → Nat) (bs : List Bear)
    (st : SchedState) (b : Bear) (hm : b ∈ bs)
    (h : ¬ (getDeps st.tracker b = [])) :
    lookupRun (schedule_bears N bs st).running b = lookupRun st.running b ∧
    ((schedule_bears N bs st).submitted).filter (fun e => decide (e.1 = b)) =
      st.submitted.filter (fun e => decide (e.1 = b)) ∧
    b ∈ (schedule_bears N bs st).warned :=
  ⟨sched_lookup_withdeps N bs st b h,
   sched_submitted_withdeps N bs st b h,
   sched_warned_of_withdeps N bs st b hm h⟩

/-- C8 witness: a bear with an unresolved dependency, concretely held
back by `schedule_bears`. -/
theorem c8_unresolved_deps_skipped_witness :
    ((⟨false, 2, 1, 4, 4⟩ : Bear) ∈ [(⟨false, 2, 1, 4, 4⟩ : Bear)] ∧
     ¬ (getDeps [((⟨false, 1, 0, 4, 4⟩ : Bear), (⟨false, 2, 1, 4, 4⟩ : Bear))]
          (⟨false, 2, 1, 4, 4⟩ : Bear) = [])) ∧
    (lookupRun (schedule_bears (fun _ => 1) [⟨false, 2, 1, 4, 4⟩]
        ⟨[], [(⟨false, 1, 0, 4, 4⟩, ⟨false, 2, 1, 4, 4⟩)], [], [], 0, false, []⟩).running
        ⟨false, 2, 1, 4, 4⟩ =
      lookupRun ([] : List (Bear × List BTask)) ⟨false, 2, 1, 4, 4⟩ ∧
     ((schedule_bears (fun _ => 1) [⟨false, 2, 1, 4, 4⟩]
        ⟨[], [(⟨false, 1, 0, 4, 4⟩, ⟨false, 2, 1, 4, 4⟩)], [], [], 0, false, []⟩).submitted).filter
          (fun e => decide (e.1 = ⟨false, 2, 1, 4, 4⟩)) =
       ([] : List (Bear × BTask)).filter (fun e => decide (e.1 = ⟨false, 2, 1, 4, 4⟩)) ∧
     (⟨false, 2, 1, 4, 4⟩ : Bear) ∈ (schedule_bears (fun _ => 1) [⟨false, 2, 1, 4, 4⟩]
        ⟨[], [(⟨false, 1, 0, 4, 4⟩, ⟨false, 2, 1, 4, 4⟩)], [], [], 0, false, []⟩).warned) :=
  ⟨⟨by decide, by decide⟩,
   c8_unresolved_deps_skipped (fun _ => 1) [⟨false, 2, 1, 4, 4⟩]
     ⟨[], [(⟨false, 1, 0, 4, 4⟩, ⟨false, 2, 1, 4, 4⟩)], [], [], 0, false, []⟩
     ⟨false, 2, 1, 4, 4⟩ (by decide) (by decide)⟩

theorem finish_sinkLog (N : Bear → Nat) (b : Bear) (t : BTask) (o : Outcome)
    (st : SchedState) :
    (finish_task N b t o st).sinkLog = st.sinkLog ++ deliveredOf o := by
  simp only [finish_task]
  split_ifs <;> simp_all [sched_sinkLog]

theorem finish_errors (N : Bear → Nat) (b : Bear) (t : BTask) (o : Outcome)
    (st : SchedState) :
    (finish_task N b t o st).errors =
      st.errors + (if o.raisesAt = none then 0 else 1) := by
  simp only [finish_task]
  split_ifs <;> simp_all [sched_errors]

/-- C9: in a session tail in which no task raises and no sink invocation
raises, the sequence of records delivered to the result callback is
exactly the concatenation of the completed tasks' outputs — each record
of each task reaches the sink exactly once. -/
theorem c9_sink_receives_all_outputs (N : Bear → Nat) (cs : List Completion)
    (st : SchedState) (h : ∀ c ∈ cs, c.out.raisesAt = none) :
    (runSession N cs st).sinkLog =
      st.sinkLog ++ (cs.map (fun c => c.out.output)).join := by
  induction cs generalizing st with
  | nil => simp [runSession]
  | cons c cs ih =>
    simp only [runSession, List.foldl_cons] at *
    rw [ih _ (fun d hd => h d (List.mem_cons_of_mem _ hd))]
    simp [doCompletion, finish_sinkLog, deliveredOf,
      h c (List.mem_cons_self _ _), List.append_assoc]

/-- C9 witness: two completed tasks without exceptions; the sink trace
is the concatenation of their outputs. -/
theorem c9_sink_receives_all_outputs_witness :
    (∀ c ∈ [(⟨⟨false, 1, 0, 1, 1⟩, 0, ⟨[11, 12], none⟩⟩ : Completion),
            ⟨⟨false, 1, 0, 1, 1⟩, 1, ⟨[13], none⟩⟩], c.out.raisesAt = none) ∧
    (runSession (fun _ => 2)
        [⟨⟨false, 1, 0, 1, 1⟩, 0, ⟨[11, 12], none⟩⟩,
         ⟨⟨false, 1, 0, 1, 1⟩, 1, ⟨[13], none⟩⟩]
        ⟨[(⟨false, 1, 0, 1, 1⟩, [0, 1])], [], [], [], 0, false, []⟩).sinkLog =
      [] ++ ([[11, 12], [13]] : List (List Nat)).join :=
  ⟨by decide,
   c9_sink_receives_all_outputs (fun _ => 2)
     [⟨⟨false, 1, 0, 1, 1⟩, 0, ⟨[11, 12], none⟩⟩,
      ⟨⟨false, 1, 0, 1, 1⟩, 1, ⟨[13], none⟩⟩]
     ⟨[(⟨false, 1, 0, 1, 1⟩, [0, 1])], [], [], [], 0, false, []⟩ (by decide)⟩
theorem sched_lookup_notmem (N : Bear → Nat) (bs : List Bear)
    (st : SchedState) (r : Bear) (h : ¬ (r ∈ bs)) :
    lookupRun (schedule_bears N bs st).running r = lookupRun st.running r := by
  induction bs generalizing st with
  | nil => simp [schedule_bears]
  | cons a bs ih =>
    simp only [schedule_bears, List.foldl_cons] at *
    have har : ¬ (a = r) := fun he => h (List.mem_cons.mpr (Or.inl he.symm))
    rw [ih _ (fun hr => h (List.mem_cons.mpr (Or.inr hr)))]
    by_cases ha : getDeps st.tracker a = []
    · simp [schedStep, ha, lookupRun_setRun_other _ _ _ _ (Ne.symm har)]
    · simp [schedStep, ha]

theorem sched_sets_entry (N : Bear → Nat) (bs : List Bear)
    (st : SchedState) (r : Bear) (hm : r ∈ bs)
    (hd : getDeps st.tracker r = []) :
    lookupRun (schedule_bears N bs st).running r = some (taskList N r) := by
  induction bs generalizing st with
  | nil => cases hm
  | cons a bs ih =>
    simp only [schedule_bears, List.foldl_cons] at *
    by_cases hr : r ∈ bs
    · exact ih (schedStep N st a) hr (by rw [schedStep_tracker]; exact hd)
    · have har : a = r := by
        rcases List.mem_cons.mp hm with h1 | h1
        · exact h1.symm
        · exact absurd h1 hr
      subst har
      have hpres : lookupRun (List.foldl (schedStep N) (schedStep N st a) bs).running a =
          lookupRun (schedStep N st a).running a := by
        simpa [schedule_bears] using sched_lookup_notmem N bs (schedStep N st a) a hr
      rw [hpres]
      simp [schedStep, hd, lookupRun_setRun_self]

theorem mem_resolved_edge (tr : List (Bear × Bear)) (p r : Bear)
    (h : r ∈ (resolveTracker tr p).2) : (p, r) ∈ tr := by
  simp only [resolveTracker, List.mem_filter, mem_dedupL, List.mem_map,
    decide_eq_true_eq] at h
  obtain ⟨⟨e, ⟨hme, hep⟩, he2⟩, _⟩ := h
  have he : e = (p, r) := by
    cases e; simp_all
  exact he ▸ hme

theorem mem_resolved_nodeps (tr : List (Bear × Bear)) (p r : Bear)
    (h : r ∈ (resolveTracker tr p).2) :
    getDeps (resolveTracker tr p).1 r = [] := by
  simp only [resolveTracker, List.mem_filter, decide_eq_true_eq] at h ⊢
  exact h.2
theorem ite_running (c : Prop) [Decidable c] (a b : SchedState) :
    (if c then a else b).running = if c then a.running else b.running := by
  split <;> rfl

theorem ite_tracker (c : Prop) [Decidable c] (a b : SchedState) :
    (if c then a else b).tracker = if c then a.tracker else b.tracker := by
  split <;> rfl

theorem finish_keeps_entry (N : Bear → Nat) (b : Bear) (t : BTask)
    (o : Outcome) (st : SchedState) (ts0 : List BTask)
    (hrun : lookupRun st.running b = some ts0)
    (he : ¬ (ts0.erase t = [])) :
    lookupRun (finish_task N b t o st).running b = some (ts0.erase t) := by
  simp [finish_task, hrun, he, ite_running, lookupRun_setRun_self]

theorem finish_drops_entry (N : Bear → Nat) (b : Bear) (t : BTask)
    (o : Outcome) (st : SchedState) (ts0 : List BTask)
    (hrun : lookupRun st.running b = some ts0)
    (he : ts0.erase t = []) :
    lookupRun (finish_task N b t o st).running b = none := by
  simp [finish_task, hrun, he, ite_running, lookupRun_delRun_self]

theorem finish_tracker_keep (N : Bear → Nat) (b : Bear) (t : BTask)
    (o : Outcome) (st : SchedState) (ts0 : List BTask)
    (hrun : lookupRun st.running b = some ts0)
    (he : ¬ (ts0.erase t = [])) :
    (finish_task N b t o st).tracker = st.tracker := by
  simp [finish_task, hrun, he, ite_tracker]

theorem finish_tracker_resolve (N : Bear → Nat) (b : Bear) (t : BTask)
    (o : Outcome) (st : SchedState) (ts0 : List BTask)
    (hrun : lookupRun st.running b = some ts0)
    (he : ts0.erase t = []) :
    (finish_task N b t o st).tracker = (resolveTracker st.tracker b).1 := by
  simp [finish_task, hrun, he, ite_tracker, sched_tracker]

theorem finish_stop_iff (N : Bear → Nat) (b : Bear) (t : BTask)
    (o : Outcome) (st : SchedState) (hstop : st.stopped = false) :
    ((finish_task N b t o st).stopped = true ↔
      (finish_task N b t o st).running = []) := by
  have main : ∀ s3 : SchedState, s3.stopped = false →
      ((if s3.running = [] then { s3 with stopped := true } else s3).stopped = true ↔
       (if s3.running = [] then { s3 with stopped := true } else s3).running = []) := by
    intro s3 h3
    by_cases hc : s3.running = [] <;> simp [hc, h3]
  simp only [finish_task]
  apply main
  split_ifs <;> simp [sched_stopped, hstop]

theorem finish_schedules_freed (N : Bear → Nat) (b : Bear) (t : BTask)
    (o : Outcome) (st : SchedState) (ts0 : List BTask)
    (hrun : lookupRun st.running b = some ts0)
    (he : ts0.erase t = [])
    (hself : ¬ ((b, b) ∈ st.tracker)) :
    ∀ r ∈ (resolveTracker st.tracker b).2,
      lookupRun (finish_task N b t o st).running r = some (taskList N r) := by
  intro r hr
  have hrb : ¬ (r = b) := fun hd =>
    hself (by simpa [hd] using mem_resolved_edge st.tracker b r hr)
  have hne : ¬ ((resolveTracker st.tracker b).2 = []) := by
    intro h0
    rw [h0] at hr
    cases hr
  simp only [finish_task, hrun, Option.getD_some, he, if_pos rfl, if_neg hne,
    ite_running, if_true]
  rw [ite_self, lookupRun_delRun_other _ _ _ hrb]
  exact sched_sets_entry N _ _ r hr (mem_resolved_nodeps st.tracker b r hr)

/-- C3: the completion handler removes the finished task from
`running[b]`; when `running[b]` thereby becomes empty it resolves `b`
in the tracker, schedules every freed successor, and deletes `b`'s
entry; and it signals the event loop to stop exactly when the running
map becomes empty overall. -/
theorem c3_finish_task_bookkeeping (N : Bear → Nat) (b : Bear) (t : BTask)
    (o : Outcome) (st : SchedState) (ts0 : List BTask)
    (hrun : lookupRun st.running b = some ts0) (ht : t ∈ ts0)
    (hstop : st.stopped = false)
    (hself : ¬ ((b, b) ∈ st.tracker)) :
    (¬ (ts0.erase t = []) →
      lookupRun (finish_task N b t o st).running b = some (ts0.erase t) ∧
      (finish_task N b t o st).tracker = st.tracker) ∧
    (ts0.erase t = [] →
      lookupRun (finish_task N b t o st).running b = none ∧
      (finish_task N b t o st).tracker = (resolveTracker st.tracker b).1 ∧
      ∀ r ∈ (resolveTracker st.tracker b).2,
        lookupRun (finish_task N b t o st).running r = some (taskList N r)) ∧
    ((finish_task N b t o st).stopped = true ↔
      (finish_task N b t o st).running = []) :=
  ⟨fun he => ⟨finish_keeps_entry N b t o st ts0 hrun he,
              finish_tracker_keep N b t o st ts0 hrun he⟩,
   fun he => ⟨finish_drops_entry N b t o st ts0 hrun he,
              finish_tracker_resolve N b t o st ts0 hrun he,
              finish_schedules_freed N b t o st ts0 hrun he hself⟩,
   finish_stop_iff N b t o st hstop⟩

/-- C3 witness: a bear's last task completes; the dependant it was
blocking is resolved and scheduled, the bear leaves the running map,
and the loop is not stopped because the dependant is now running. -/
theorem c3_finish_task_bookkeeping_witness :
    (lookupRun [((⟨false, 1, 0, 1, 1⟩ : Bear), [0])] ⟨false, 1, 0, 1, 1⟩ =
        some [0] ∧
     (0 : BTask) ∈ [(0 : BTask)] ∧
     false = false ∧
     ¬ (((⟨false, 1, 0, 1, 1⟩ : Bear), (⟨false, 1, 0, 1, 1⟩ : Bear)) ∈
        [((⟨false, 1, 0, 1, 1⟩ : Bear), (⟨false, 2, 1, 1, 1⟩ : Bear))])) ∧
    ((¬ (([0] : List BTask).erase 0 = []) →
      lookupRun (finish_task (fun _ => 1) ⟨false, 1, 0, 1, 1⟩ 0 ⟨[42], none⟩
          ⟨[(⟨false, 1, 0, 1, 1⟩, [0])],
           [(⟨false, 1, 0, 1, 1⟩, ⟨false, 2, 1, 1, 1⟩)], [], [], 0, false,
           []⟩).running ⟨false, 1, 0, 1, 1⟩ = some (([0] : List BTask).erase 0) ∧
      (finish_task (fun _ => 1) ⟨false, 1, 0, 1, 1⟩ 0 ⟨[42], none⟩
          ⟨[(⟨false, 1, 0, 1, 1⟩, [0])],
           [(⟨false, 1, 0, 1, 1⟩, ⟨false, 2, 1, 1, 1⟩)], [], [], 0, false,
           []⟩).tracker = [(⟨false, 1, 0, 1, 1⟩, ⟨false, 2, 1, 1, 1⟩)]) ∧
    (([0] : List BTask).erase 0 = [] →
      lookupRun (finish_task (fun _ => 1) ⟨false, 1, 0, 1, 1⟩ 0 ⟨[42], none⟩
          ⟨[(⟨false, 1, 0, 1, 1⟩, [0])],
           [(⟨false, 1, 0, 1, 1⟩, ⟨false, 2, 1, 1, 1⟩)], [], [], 0, false,
           []⟩).running ⟨false, 1, 0, 1, 1⟩ = none ∧
      (finish_task (fun _ => 1) ⟨false, 1, 0, 1, 1⟩ 0 ⟨[42], none⟩
          ⟨[(⟨false, 1, 0, 1, 1⟩, [0])],
           [(⟨false, 1, 0, 1, 1⟩, ⟨false, 2, 1, 1, 1⟩)], [], [], 0, false,
           []⟩).tracker =
        (resolveTracker [(⟨false, 1, 0, 1, 1⟩, ⟨false, 2, 1, 1, 1⟩)]
          ⟨false, 1, 0, 1, 1⟩).1 ∧
      ∀ r ∈ (resolveTracker [(⟨false, 1, 0, 1, 1⟩, ⟨false, 2, 1, 1, 1⟩)]
          ⟨false, 1, 0, 1, 1⟩).2,
        lookupRun (finish_task (fun _ => 1) ⟨false, 1, 0, 1, 1⟩ 0 ⟨[42], none⟩
            ⟨[(⟨false, 1, 0, 1, 1⟩, [0])],
             [(⟨false, 1, 0, 1, 1⟩, ⟨false, 2, 1, 1, 1⟩)], [], [], 0, false,
             []⟩).running r = some (taskList (fun _ => 1) r)) ∧
    ((finish_task (fun _ => 1) ⟨false, 1, 0, 1, 1⟩ 0 ⟨[42], none⟩
        ⟨[(⟨false, 1, 0, 1, 1⟩, [0])],
         [(⟨false, 1, 0, 1, 1⟩, ⟨false, 2, 1, 1, 1⟩)], [], [], 0, false,
         []⟩).stopped = true ↔
      (finish_task (fun _ => 1) ⟨false, 1, 0, 1, 1⟩ 0 ⟨[42], none⟩
        ⟨[(⟨false, 1, 0, 1, 1⟩, [0])],
         [(⟨false, 1, 0, 1, 1⟩, ⟨false, 2, 1, 1, 1⟩)], [], [], 0, false,
         []⟩).running = [])) :=
  ⟨⟨by decide, by decide, rfl, by decide⟩,
   c3_finish_task_bookkeeping (fun _ => 1) ⟨false, 1, 0, 1, 1⟩ 0 ⟨[42], none⟩
     ⟨[(⟨false, 1, 0, 1, 1⟩, [0])],
      [(⟨false, 1, 0, 1, 1⟩, ⟨false, 2, 1, 1, 1⟩)], [], [], 0, false, []⟩
     [0] (by decide) (by decide) rfl (by decide)⟩

/-- C4: when the task's execution or the iteration of its results
through the sink raises, the completion handler logs the exception
(one `logging.error` call), delivers only the records produced before
the exception, and still removes the task from `running[b]`; the
handler itself returns normally (it is a total function of the state),
so the exception does not propagate. -/
theorem c4_exception_trapped (N : Bear → Nat) (b : Bear) (t : BTask)
    (o : Outcome) (st : SchedState) (ts0 : List BTask)
    (hrun : lookupRun st.running b = some ts0) (ht : t ∈ ts0)
    (hfail : ¬ (o.raisesAt = none)) :
    (finish_task N b t o st).errors = st.errors + 1 ∧
    (finish_task N b t o st).sinkLog = st.sinkLog ++ deliveredOf o ∧
    (¬ (ts0.erase t = []) →
      lookupRun (finish_task N b t o st).running b = some (ts0.erase t)) ∧
    (ts0.erase t = [] →
      lookupRun (finish_task N b t o st).running b = none) :=
  ⟨by rw [finish_errors]; simp [hfail],
   finish_sinkLog N b t o st,
   fun he => finish_keeps_entry N b t o st ts0 hrun he,
   fun he => finish_drops_entry N b t o st ts0 hrun he⟩

/-- C4 witness: a task that raises after its first record is still
retired from the running map and the failure is logged. -/
theorem c4_exception_trapped_witness :
    (lookupRun [((⟨false, 3, 0, 2, 2⟩ : Bear), [0, 1])] ⟨false, 3, 0, 2, 2⟩ =
        some [0, 1] ∧
     (0 : BTask) ∈ [(0 : BTask), 1] ∧
     ¬ ((Outcome.mk [21, 22] (some 1)).raisesAt = none)) ∧
    ((finish_task (fun _ => 2) ⟨false, 3, 0, 2, 2⟩ 0 ⟨[21, 22], some 1⟩
        ⟨[(⟨false, 3, 0, 2, 2⟩, [0, 1])], [], [], [], 0, false, []⟩).errors =
      0 + 1 ∧
     (finish_task (fun _ => 2) ⟨false, 3, 0, 2, 2⟩ 0 ⟨[21, 22], some 1⟩
        ⟨[(⟨false, 3, 0, 2, 2⟩, [0, 1])], [], [], [], 0, false, []⟩).sinkLog =
      [] ++ deliveredOf ⟨[21, 22], some 1⟩ ∧
     (¬ (([0, 1] : List BTask).erase 0 = []) →
       lookupRun (finish_task (fun _ => 2) ⟨false, 3, 0, 2, 2⟩ 0 ⟨[21, 22], some 1⟩
          ⟨[(⟨false, 3, 0, 2, 2⟩, [0, 1])], [], [], [], 0, false, []⟩).running
          ⟨false, 3, 0, 2, 2⟩ = some (([0, 1] : List BTask).erase 0)) ∧
     (([0, 1] : List BTask).erase 0 = [] →
       lookupRun (finish_task (fun _ => 2) ⟨false, 3, 0, 2, 2⟩ 0 ⟨[21, 22], some 1⟩
          ⟨[(⟨false, 3, 0, 2, 2⟩, [0, 1])], [], [], [], 0, false, []⟩).running
          ⟨false, 3, 0, 2, 2⟩ = none)) :=
  ⟨⟨by decide, by decide, by decide⟩,
   c4_exception_trapped (fun _ => 2) ⟨false, 3, 0, 2, 2⟩ 0 ⟨[21, 22], some 1⟩
     ⟨[(⟨false, 3, 0, 2, 2⟩, [0, 1])], [], [], [], 0, false, []⟩ [0, 1]
     (by decide) (by decide) (by decide)⟩

/-- C5 (bug in the source, flagged by the spec): a bear whose
`generate_tasks()` yields no tasks is NOT treated as completed.
`schedule_bears` stores the empty future set in `running_tasks`, the
tracker is not resolved (the edge to the dependant bear remains),
nothing is submitted to the executor — so no completion callback can
ever fire for the bear, the dependant is never released and the loop is
never stopped. -/
theorem c5_empty_task_set_stalls :
    (schedule_bears (fun _ => 0) [⟨false, 1, 0, 1, 1⟩]
        ⟨[], [(⟨false, 1, 0, 1, 1⟩, ⟨false, 2, 1, 1, 1⟩)], [], [], 0, false,
         []⟩).running = [((⟨false, 1, 0, 1, 1⟩ : Bear), ([] : List BTask))] ∧
    (schedule_bears (fun _ => 0) [⟨false, 1, 0, 1, 1⟩]
        ⟨[], [(⟨false, 1, 0, 1, 1⟩, ⟨false, 2, 1, 1, 1⟩)], [], [], 0, false,
         []⟩).tracker = [(⟨false, 1, 0, 1, 1⟩, ⟨false, 2, 1, 1, 1⟩)] ∧
    (schedule_bears (fun _ => 0) [⟨false, 1, 0, 1, 1⟩]
        ⟨[], [(⟨false, 1, 0, 1, 1⟩, ⟨false, 2, 1, 1, 1⟩)], [], [], 0, false,
         []⟩).submitted = [] ∧
    (schedule_bears (fun _ => 0) [⟨false, 1, 0, 1, 1⟩]
        ⟨[], [(⟨false, 1, 0, 1, 1⟩, ⟨false, 2, 1, 1, 1⟩)], [], [], 0, false,
         []⟩).stopped = false := by
  decide

/-- C6 (bug in the source): `load_files` always returns the empty
mapping — `section_to_file_dict` is created and returned but never
written to.  Here a bear's section lists one file which loads fine
(it even lands in `master_file_dict`), yet the returned
section-to-file-dict mapping is empty instead of mapping the bear's
section to the loaded file. -/
theorem c6_load_files_returns_empty_mapping :
    (load_files (fun s => if s = 5 then [40] else [])
        (fun f => if f = 40 then some [7, 8] else none)
        [⟨false, 1, 0, 5, 7⟩]).sectionToFileDict = [] ∧
    (load_files (fun s => if s = 5 then [40] else [])
        (fun f => if f = 40 then some [7, 8] else none)
        [⟨false, 1, 0, 5, 7⟩]).masterFileDict = [(40, [7, 8])] := by
  decide

/-- C1 (bug in the source): `initialize_dependencies` groups the seed
SET with `itertools.groupby` without sorting, and `groupby` only groups
consecutive elements.  With a set iteration order that interleaves two
`(section, file_dict)` classes — here `[A, B, A2]` with `A` and `A2`
sharing `(section 5, file-dict 7)` and both of class 0 depending on
class 10 — the dependency class 10 is instantiated twice for the same
`(scope, file-dict, type)` triple, violating the claimed at-most-one
instantiation. -/
theorem c1_double_instantiation :
    ((initialize_dependencies (fun t => if t = 0 ∨ t = 1 then [10] else []) 10
        [⟨false, 1, 0, 5, 7⟩, ⟨false, 2, 1, 6, 8⟩,
         ⟨false, 3, 0, 5, 7⟩]).created.filter
      (fun c => decide (c.ty = 10 ∧ c.sec = 5 ∧ c.fd = 7))).length = 2 := by
  decide

/-- C7 counterexample: two seeds `s1` (inserted first) and `s2`
(inserted second) of the same class 0 in one `(section, file_dict)`
group, and a dependent `d` declaring class 0.  The dependent is bound
to `s2` — the seed inserted LAST into the type-to-instance map (dict
assignment overwrites) — not to the first-inserted `s1` as claimed. -/
theorem c7_counterexample_binds_last :
    getDeps (initialize_dependencies (fun t => if t = 1 then [0] else []) 10
        [⟨false, 1, 0, 5, 7⟩, ⟨false, 2, 0, 5, 7⟩,
         ⟨false, 3, 1, 5, 7⟩]).tracker ⟨false, 3, 1, 5, 7⟩ =
      [⟨false, 2, 0, 5, 7⟩] ∧
    ¬ ((⟨false, 2, 0, 5, 7⟩ : Bear) = ⟨false, 1, 0, 5, 7⟩) := by
  decide

/-! ## Corrupt-file bookkeeping of `load_files` (C10) -/

/-- Invariant tying the `corrupt_files` set to the open attempts: a file
that fails to read never enters `master_file_dict`, and it has been
opened exactly once iff it is in `corrupt_files`. -/
def failInv (fileRead : Nat → Option (List Nat)) (st : LoadState) : Prop :=
  ∀ f, fileRead f = none →
    lookupFile st.masterFileDict f = none ∧
    st.attempts.count f = (if f ∈ st.corruptFiles then 1 else 0)

theorem lookupFile_append_other (m : List (Nat × List Nat)) (k f : Nat)
    (v : List Nat) (h : ¬ (f = k)) :
    lookupFile (m ++ [(k, v)]) f = lookupFile m f := by
  induction m with
  | nil =>
    simp only [List.nil_append, lookupFile]
    rw [if_neg (fun he => h he.symm)]
  | cons e m ih => by_cases he : e.1 = f <;> simp_all [lookupFile]

theorem processFile_inv (fileRead : Nat → Option (List Nat))
    (acc : LoadState × List (Nat × List Nat)) (g : Nat)
    (h : failInv fileRead acc.1) :
    failInv fileRead (processFile fileRead acc g).1 := by
  intro f hf
  obtain ⟨hm0, hc0⟩ := h f hf
  simp only [processFile]
  cases hmg : lookupFile acc.1.masterFileDict g with
  | some lines => exact ⟨hm0, hc0⟩
  | none =>
    by_cases hcg : g ∈ acc.1.corruptFiles
    · simp only [if_pos hcg]
      exact ⟨hm0, hc0⟩
    · simp only [if_neg hcg]
      cases hfg : fileRead g with
      | some lines =>
        have hfg2 : ¬ (f = g) := by
          intro he
          rw [he, hfg] at hf
          cases hf
        refine ⟨?_, ?_⟩
        · simpa [lookupFile_append_other _ _ _ _ hfg2] using hm0
        · simp [List.count_append, hc0, List.count_cons, hfg2]
      | none =>
        by_cases hfg2 : f = g
        · subst hfg2
          have hc00 : acc.1.attempts.count f = 0 := by simp [hc0, hcg]
          refine ⟨hm0, ?_⟩
          simp [List.count_append, hc00, List.count_cons, List.mem_append]
        · refine ⟨hm0, ?_⟩
          simp [List.count_append, hc0, List.count_cons, List.mem_append, hfg2]

theorem foldFiles_inv (fileRead : Nat → Option (List Nat)) (fs : List Nat) :
    ∀ acc : LoadState × List (Nat × List Nat), failInv fileRead acc.1 →
      failInv fileRead ((fs.foldl (processFile fileRead) acc)).1 := by
  induction fs with
  | nil => intro acc h; simpa using h
  | cons g fs ih =>
    intro acc h
    simp only [List.foldl_cons]
    exact ih _ (processFile_inv fileRead acc g h)

theorem processSection_inv (sectionFiles : Nat → List Nat)
    (fileRead : Nat → Option (List Nat)) (st : LoadState) (sec : Nat)
    (h : failInv fileRead st) :
    failInv fileRead (processSection sectionFiles fileRead st sec) := by
  exact foldFiles_inv fileRead _ (st, []) h

theorem foldSections_inv (sectionFiles : Nat → List Nat)
    (fileRead : Nat → Option (List Nat)) (secs : List Nat) :
    ∀ st : LoadState, failInv fileRead st →
      failInv fileRead (secs.foldl (processSection sectionFiles fileRead) st) := by
  induction secs with
  | nil => intro st h; simpa using h
  | cons s secs ih =>
    intro st h
    simp only [List.foldl_cons]
    exact ih _ (processSection_inv sectionFiles fileRead st s h)

theorem load_files_inv (sectionFiles : Nat → List Nat)
    (fileRead : Nat → Option (List Nat)) (bears : List Bear) :
    failInv fileRead (load_files sectionFiles fileRead bears) := by
  have base : failInv fileRead ⟨[], [], [], []⟩ := by
    intro f hf
    simp [lookupFile]
  rw [load_files]
  exact foldSections_inv sectionFiles fileRead _ _ base

/-- C10: a filename that fails to read (decode or OS error) is recorded
in the corrupt-file set and never opened again in any later section:
every failing filename is opened at most once across the whole
`load_files` call. -/
theorem c10_corrupt_file_attempted_once (sectionFiles : Nat → List Nat)
    (fileRead : Nat → Option (List Nat)) (bears : List Bear) (f : Nat)
    (hf : fileRead f = none) :
    (load_files sectionFiles fileRead bears).attempts.count f ≤ 1 := by
  obtain ⟨-, hc⟩ := load_files_inv sectionFiles fileRead bears f hf
  rw [hc]
  split <;> simp

/-! ## The overwrite semantics of the type-to-instance map (C7) -/

theorem foldl_preserve {α : Type} {β : Type} (P : β → Prop) (f : β → α → β)
    (l : List α) (hstep : ∀ b x, x ∈ l → P b → P (f b x)) :
    ∀ b : β, P b → P (l.foldl f b) := by
  induction l with
  | nil => intro b hb; simpa using hb
  | cons x l ih =>
    intro b hb
    simp only [List.foldl_cons]
    exact ih (fun b' y hy hb' => hstep b' y (List.mem_cons_of_mem _ hy) hb')
      (f b x) (hstep b x (List.mem_cons_self _ _) hb)

def lastPick (T : Nat) (a : Option Bear) (b : Bear) : Option Bear :=
  if b.ty = T then some b else a

/-- The binding a class `T` holds in the type-to-instance map after the
seeding loop: the LAST bear of class `T` in the group's iteration order
(later dict assignments overwrite earlier ones). -/
def lastOfType (gs : List Bear) (T : Nat) : Option Bear :=
  gs.foldl (lastPick T) none

theorem lastPick_fold_ne_none (T : Nat) (gs : List Bear) :
    ∀ c : Bear, ¬ (gs.foldl (lastPick T) (some c) = none) := by
  induction gs with
  | nil => intro c h; cases h
  | cons g gs ih =>
    intro c
    simp only [List.foldl_cons, lastPick]
    by_cases hg : g.ty = T <;> simp [hg, ih]

theorem lastOfType_ne_none (gs : List Bear) (T : Nat) (s : Bear)
    (hm : s ∈ gs) (ht : s.ty = T) : ¬ (lastOfType gs T = none) := by
  induction gs with
  | nil => cases hm
  | cons g gs ih =>
    rcases List.mem_cons.mp hm with h1 | h1
    · subst h1
      simp only [lastOfType, List.foldl_cons, lastPick, ht, if_pos rfl]
      exact lastPick_fold_ne_none T gs s
    · by_cases hg : g.ty = T
      · simp only [lastOfType, List.foldl_cons, lastPick, hg, if_pos rfl]
        exact lastPick_fold_ne_none T gs g
      · simpa only [lastOfType, List.foldl_cons, lastPick, hg, if_neg hg]
          using ih h1

theorem lookup_seed_foldl_inr (gs : List Bear) :
    ∀ (m : List (GNode × Bear)) (u : Nat),
      lookupMap (gs.foldl seedStep m) (Sum.inr u) =
        gs.foldl (lastPick u) (lookupMap m (Sum.inr u)) := by
  induction gs with
  | nil => intro m u; rfl
  | cons b gs ih =>
    intro m u
    simp only [List.foldl_cons, ih]
    by_cases hb : b.ty = u <;>
      simp [seedStep, lookupMap, lastPick, hb]

theorem seedMap_inr (gs : List Bear) (u : Nat) :
    lookupMap (seedMap gs) (Sum.inr u) = lastOfType gs u := by
  simp [seedMap, lastOfType, lookup_seed_foldl_inr, lookupMap]

theorem seedMap_inr_ty (gs : List Bear) (u : Nat) (c : Bear)
    (h : lookupMap (seedMap gs) (Sum.inr u) = some c) : c.ty = u := by
  rw [seedMap_inr] at h
  have main : ∀ (l : List Bear) (a : Option Bear),
      (∀ c2 : Bear, a = some c2 → c2.ty = u) →
      ∀ c2 : Bear, l.foldl (lastPick u) a = some c2 → c2.ty = u := by
    intro l
    induction l with
    | nil => intro a ha c2 h2; exact ha c2 h2
    | cons g l ih =>
      intro a ha c2 h2
      simp only [List.foldl_cons] at h2
      refine ih (lastPick u a g) ?_ c2 h2
      intro c3 h3
      by_cases hg : g.ty = u
      · have hpick : lastPick u a g = some g := by simp [lastPick, hg]
        rw [hpick, Option.some.injEq] at h3
        rw [← h3]; exact hg
      · rw [show lastPick u a g = a from by simp [lastPick, hg]] at h3
        exact ha c3 h3
  exact main gs none (fun c2 h2 => by cases h2) c h

theorem seedMap_inl (gs : List Bear) (x c : Bear)
    (h : lookupMap (seedMap gs) (Sum.inl x) = some c) : c = x := by
  have main := foldl_preserve
    (fun m => ∀ y c2 : Bear, lookupMap m (Sum.inl y) = some c2 → c2 = y)
    seedStep gs ?_ [] ?_
  · exact main x c h
  · intro m b _ hm y c2 h2
    by_cases hb : b = y
    · subst hb
      simp [seedStep, lookupMap] at h2
      exact h2.symm
    · simp [seedStep, lookupMap, hb] at h2
      exact hm y c2 h2
  · intro y c2 h2
    cases h2
/-- Map half of the traversal invariant: class keys map to instances of
that class, instance keys map to themselves, and the shared class `T`
keeps its seeded binding (the last seed of class `T`). -/
def MapInvP (T : Nat) (gs : List Bear) (m : List (GNode × Bear)) : Prop :=
  (∀ u c, lookupMap m (Sum.inr u) = some c → c.ty = u) ∧
  (∀ x c, lookupMap m (Sum.inl x) = some c → c = x) ∧
  lookupMap m (Sum.inr T) = lastOfType gs T

/-- Tracker half of the invariant: every edge whose dependency is of
class `T` binds the last seed of class `T`, and no edge has a
no-dependency seed (`s1`, `s2`) as its dependant. -/
def TrkInvP (T : Nat) (gs : List Bear) (s1 s2 : Bear)
    (tr : List (Bear × Bear)) : Prop :=
  ∀ e ∈ tr, (e.1.ty = T → some e.1 = lastOfType gs T) ∧
    ¬ (e.2 = s1) ∧ ¬ (e.2 = s2)

def C7Inv (T : Nat) (gs : List Bear) (s1 s2 : Bear) (st : TravState) : Prop :=
  MapInvP T gs st.tmap ∧ TrkInvP T gs s1 s2 st.tracker

theorem visitEdge_inv (E : Nat → List Nat) (T : Nat) (gs : List Bear)
    (s1 s2 : Bear) (sec fd : Nat) (u : GNode) (v : Nat)
    (hv : v ∈ E (tyOfNode u)) (hE : E T = [])
    (hsome : ¬ (lastOfType gs T = none))
    (hf1 : s1.fresh = false) (hf2 : s2.fresh = false)
    (ht1 : s1.ty = T) (ht2 : s2.ty = T)
    (st : TravState) (h : C7Inv T gs s1 s2 st) :
    C7Inv T gs s1 s2 (visitEdge sec fd u v st) := by
  obtain ⟨⟨hm1, hm2, hm3⟩, htr⟩ := h
  have huT : ¬ (tyOfNode u = T) := by
    intro hT
    rw [hT, hE] at hv
    cases hv
  have hdpt : ∀ (m2 : List (GNode × Bear)),
      (∀ u2 c, lookupMap m2 (Sum.inr u2) = some c → c.ty = u2) →
      (∀ x c, lookupMap m2 (Sum.inl x) = some c → c = x) →
      ∀ s : Bear, s.fresh = false → s.ty = T →
        ¬ ((lookupMap m2 u).getD defaultBear = s) := by
    intro m2 q1 q2 s hsf hst heq
    cases hlu : lookupMap m2 u with
    | none =>
      rw [hlu] at heq
      have : defaultBear = s := by simpa using heq
      rw [← this] at hsf
      cases hsf
    | some c =>
      rw [hlu] at heq
      have hc : c = s := by simpa using heq
      subst hc
      cases u with
      | inl x =>
        have hx := q2 x c hlu
        subst hx
        exact huT (by simpa [tyOfNode] using hst)
      | inr t =>
        have hct := q1 t c hlu
        apply huT
        simp only [tyOfNode]
        rw [← hct, hst]
  by_cases hvac : lookupMap st.tmap (Sum.inr v) = none
  · -- a fresh dependency instance is constructed
    have hvT : ¬ (v = T) := by
      intro hveq
      apply hsome
      rw [hveq] at hvac
      rw [← hm3]
      exact hvac
    simp only [visitEdge, hvac, if_pos rfl]
    have hq1 : ∀ u2 c,
        lookupMap ((Sum.inr v, (⟨true, st.nextId, v, sec, fd⟩ : Bear)) :: st.tmap)
          (Sum.inr u2) = some c → c.ty = u2 := by
      intro u2 c hc
      by_cases hvu : v = u2
      · subst hvu
        simp [lookupMap] at hc
        subst hc
        rfl
      · rw [show lookupMap ((Sum.inr v, (⟨true, st.nextId, v, sec, fd⟩ : Bear)) :: st.tmap)
            (Sum.inr u2) = lookupMap st.tmap (Sum.inr u2) from by
          simp [lookupMap, hvu]] at hc
        exact hm1 u2 c hc
    have hq2 : ∀ x c,
        lookupMap ((Sum.inr v, (⟨true, st.nextId, v, sec, fd⟩ : Bear)) :: st.tmap)
          (Sum.inl x) = some c → c = x := by
      intro x c hc
      rw [show lookupMap ((Sum.inr v, (⟨true, st.nextId, v, sec, fd⟩ : Bear)) :: st.tmap)
          (Sum.inl x) = lookupMap st.tmap (Sum.inl x) from by simp [lookupMap]] at hc
      exact hm2 x c hc
    have hq3 : lookupMap ((Sum.inr v, (⟨true, st.nextId, v, sec, fd⟩ : Bear)) :: st.tmap)
        (Sum.inr T) = lastOfType gs T := by
      rw [show lookupMap ((Sum.inr v, (⟨true, st.nextId, v, sec, fd⟩ : Bear)) :: st.tmap)
          (Sum.inr T) = lookupMap st.tmap (Sum.inr T) from by simp [lookupMap, hvT]]
      exact hm3
    refine ⟨⟨hq1, hq2, hq3⟩, ?_⟩
    intro e he
    simp only [lookupMap, if_pos rfl, Option.getD_some] at he
    rcases List.mem_append.mp he with h1 | h1
    · exact htr e h1
    · have he2 : e = (⟨true, st.nextId, v, sec, fd⟩,
          (lookupMap ((Sum.inr v, (⟨true, st.nextId, v, sec, fd⟩ : Bear)) :: st.tmap)
            u).getD defaultBear) := by simpa using h1
      subst he2
      refine ⟨fun hT => absurd hT hvT, ?_, ?_⟩
      · exact hdpt _ hq1 hq2 s1 hf1 ht1
      · exact hdpt _ hq1 hq2 s2 hf2 ht2
  · -- the class already has an instance; no construction happens
    obtain ⟨c0, hc0⟩ := Option.ne_none_iff_exists'.mp hvac
    simp only [visitEdge, hc0, if_neg (Option.some_ne_none c0), Option.getD_some]
    refine ⟨⟨hm1, hm2, hm3⟩, ?_⟩
    intro e he
    rcases List.mem_append.mp he with h1 | h1
    · exact htr e h1
    · have he2 : e = (c0, (lookupMap st.tmap u).getD defaultBear) := by
        simpa using h1
      subst he2
      refine ⟨?_, ?_, ?_⟩
      · intro hT
        have hcv : c0.ty = v := hm1 v c0 hc0
        rw [← hm3]
        rw [← show v = T from by rw [← hcv, hT]]
        exact hc0.symm
      · exact hdpt _ hm1 hm2 s1 hf1 ht1
      · exact hdpt _ hm1 hm2 s2 hf2 ht2

theorem expandStep_inv (E : Nat → List Nat) (T : Nat) (gs : List Bear)
    (s1 s2 : Bear) (sec fd : Nat) (u : GNode)
    (hE : E T = []) (hsome : ¬ (lastOfType gs T = none))
    (hf1 : s1.fresh = false) (hf2 : s2.fresh = false)
    (ht1 : s1.ty = T) (ht2 : s2.ty = T)
    (acc : List (GNode × Nat) × List GNode × TravState) (v : Nat)
    (hv : v ∈ E (tyOfNode u)) (h : C7Inv T gs s1 s2 acc.2.2) :
    C7Inv T gs s1 s2 (expandStep sec fd u acc v).2.2 := by
  by_cases hs : seenHas acc.1 u v = true
  · simpa [expandStep, hs] using h
  · simp only [expandStep, hs, Bool.false_eq_true, if_false]
    exact visitEdge_inv E T gs s1 s2 sec fd u v hv hE hsome hf1 hf2 ht1 ht2
      acc.2.2 h

theorem traverseAux_inv (E : Nat → List Nat) (sec fd : Nat) (T : Nat)
    (gs : List Bear) (s1 s2 : Bear)
    (hE : E T = []) (hsome : ¬ (lastOfType gs T = none))
    (hf1 : s1.fresh = false) (hf2 : s2.fresh = false)
    (ht1 : s1.ty = T) (ht2 : s2.ty = T) :
    ∀ (fuel : Nat) (seen : List (GNode × Nat)) (fr : List GNode)
      (st : TravState), C7Inv T gs s1 s2 st →
      C7Inv T gs s1 s2 (traverseAux E sec fd fuel seen fr st) := by
  intro fuel
  induction fuel with
  | zero => intro seen fr st h; simpa [traverseAux] using h
  | succ fuel ih =>
    intro seen fr st h
    cases fr with
    | nil => simpa [traverseAux] using h
    | cons u rest =>
      simp only [traverseAux]
      apply ih
      exact foldl_preserve (fun acc => C7Inv T gs s1 s2 acc.2.2)
        (expandStep sec fd u) (E (tyOfNode u))
        (fun acc v hv hacc =>
          expandStep_inv E T gs s1 s2 sec fd u hE hsome hf1 hf2 ht1 ht2
            acc v hv hacc)
        (seen, [], st) h

theorem groupRunsAux_const (key : Bear → Nat × Nat) (k : Nat × Nat) :
    ∀ (bs cur : List Bear) (acc : List ((Nat × Nat) × List Bear)),
      (∀ b ∈ bs, key b = k) →
      groupRunsAux key k cur acc bs = acc ++ [(k, cur ++ bs)] := by
  intro bs
  induction bs with
  | nil => intro cur acc h; simp [groupRunsAux]
  | cons b bs ih =>
    intro cur acc h
    have hb : key b = k := h b (List.mem_cons_self _ _)
    simp only [groupRunsAux, if_pos hb]
    rw [ih (cur ++ [b]) acc (fun x hx => h x (List.mem_cons_of_mem _ hx))]
    simp

theorem pyGroupby_const (key : Bear → Nat × Nat) (b0 : Bear) (bs' : List Bear)
    (hall : ∀ x ∈ b0 :: bs', key x = key b0) :
    pyGroupby key (b0 :: bs') = [(key b0, b0 :: bs')] := by
  simp only [pyGroupby]
  rw [groupRunsAux_const key (key b0) bs' [b0] []
    (fun b hb => hall b (List.mem_cons_of_mem _ hb))]
  simp

theorem getDeps_eq_nil_of_not_dependant (tr : List (Bear × Bear)) (n : Bear)
    (h : ∀ e ∈ tr, ¬ (e.2 = n)) : getDeps tr n = [] := by
  simp only [getDeps, List.map_eq_nil]
  rw [List.filter_eq_nil]
  intro e he
  simpa using h e he

/-- C7 (amended): when two seed units of the same type belong to the
same `(section, file_dict)` group — modelled as one contiguous group,
and with the shared type declaring no dependencies of its own — both
remain distinct schedulable units, and every dependency edge whose
dependency side is of that type binds the seed inserted LAST into the
type-to-instance map (later dict insertions overwrite earlier ones),
not the first. -/
theorem c7_amended_binds_last (E : Nat → List Nat) (fuel : Nat) (b0 : Bear)
    (bs' : List Bear) (s1 s2 : Bear) (T : Nat)
    (hall : ∀ x ∈ b0 :: bs', (x.sec, x.fd) = (b0.sec, b0.fd))
    (h1m : s1 ∈ b0 :: bs') (h2m : s2 ∈ b0 :: bs') (hne : ¬ (s1 = s2))
    (ht1 : s1.ty = T) (ht2 : s2.ty = T)
    (hf1 : s1.fresh = false) (hf2 : s2.fresh = false)
    (hE : E T = []) :
    (¬ (s1 = s2) ∧
     s1 ∈ (initialize_dependencies E fuel (b0 :: bs')).ready ∧
     s2 ∈ (initialize_dependencies E fuel (b0 :: bs')).ready) ∧
    (∀ e ∈ (initialize_dependencies E fuel (b0 :: bs')).tracker,
      e.1.ty = T → some e.1 = lastOfType (b0 :: bs') T) := by
  have hsome := lastOfType_ne_none (b0 :: bs') T s2 h2m ht2
  have hkey := pyGroupby_const (fun b => (b.sec, b.fd)) b0 bs' hall
  have hinv0 : C7Inv T (b0 :: bs') s1 s2
      ⟨seedMap (b0 :: bs'), [], 0, []⟩ := by
    refine ⟨⟨?_, ?_, ?_⟩, ?_⟩
    · exact fun u c h => seedMap_inr_ty _ u c h
    · exact fun x c h => seedMap_inl _ x c h
    · exact seedMap_inr _ T
    · intro e he
      cases he
  have hinv := traverseAux_inv E b0.sec b0.fd T (b0 :: bs') s1 s2 hE hsome
    hf1 hf2 ht1 ht2 fuel [] ((b0 :: bs').map Sum.inl) _ hinv0
  have htrk : (initialize_dependencies E fuel (b0 :: bs')).tracker =
      (traverseAux E b0.sec b0.fd fuel [] ((b0 :: bs').map Sum.inl)
        ⟨seedMap (b0 :: bs'), [], 0, []⟩).tracker := by
    simp [initialize_dependencies, hkey, runGroup]
  have hTrk : TrkInvP T (b0 :: bs') s1 s2
      (initialize_dependencies E fuel (b0 :: bs')).tracker := by
    rw [htrk]
    exact hinv.2
  have hd1 : getDeps (initialize_dependencies E fuel (b0 :: bs')).tracker s1
      = [] :=
    getDeps_eq_nil_of_not_dependant _ _ (fun e he => (hTrk e he).2.1)
  have hd2 : getDeps (initialize_dependencies E fuel (b0 :: bs')).tracker s2
      = [] :=
    getDeps_eq_nil_of_not_dependant _ _ (fun e he => (hTrk e he).2.2)
  refine ⟨⟨hne, ?_, ?_⟩, ?_⟩
  · exact (mem_readyPhase
      (initialize_dependencies E fuel (b0 :: bs')).tracker (b0 :: bs')
      s1).mpr (Or.inl ⟨h1m, hd1⟩)
  · exact (mem_readyPhase
      (initialize_dependencies E fuel (b0 :: bs')).tracker (b0 :: bs')
      s2).mpr (Or.inl ⟨h2m, hd2⟩)
  · intro e he ht
    exact (hTrk e he).1 ht

/-- C7 amended witness: seeds `s1` and `s2` of class 0 and a dependent
`d` of class 1 in one group; both seeds stay schedulable and the single
tracker edge binds `s2`, the last-inserted seed of class 0. -/
theorem c7_amended_binds_last_witness :
    ((∀ x ∈ [(⟨false, 1, 0, 5, 7⟩ : Bear), ⟨false, 2, 0, 5, 7⟩,
        ⟨false, 3, 1, 5, 7⟩], (x.sec, x.fd) = (5, 7)) ∧
     (⟨false, 1, 0, 5, 7⟩ : Bear) ∈ [(⟨false, 1, 0, 5, 7⟩ : Bear),
        ⟨false, 2, 0, 5, 7⟩, ⟨false, 3, 1, 5, 7⟩] ∧
     (⟨false, 2, 0, 5, 7⟩ : Bear) ∈ [(⟨false, 1, 0, 5, 7⟩ : Bear),
        ⟨false, 2, 0, 5, 7⟩, ⟨false, 3, 1, 5, 7⟩] ∧
     ¬ ((⟨false, 1, 0, 5, 7⟩ : Bear) = ⟨false, 2, 0, 5, 7⟩) ∧
     (fun t => if t = 1 then [0] else []) 0 = ([] : List Nat)) ∧
    ((¬ ((⟨false, 1, 0, 5, 7⟩ : Bear) = ⟨false, 2, 0, 5, 7⟩) ∧
      (⟨false, 1, 0, 5, 7⟩ : Bear) ∈ (initialize_dependencies
        (fun t => if t = 1 then [0] else []) 10
        [⟨false, 1, 0, 5, 7⟩, ⟨false, 2, 0, 5, 7⟩,
         ⟨false, 3, 1, 5, 7⟩]).ready ∧
      (⟨false, 2, 0, 5, 7⟩ : Bear) ∈ (initialize_dependencies
        (fun t => if t = 1 then [0] else []) 10
        [⟨false, 1, 0, 5, 7⟩, ⟨false, 2, 0, 5, 7⟩,
         ⟨false, 3, 1, 5, 7⟩]).ready) ∧
     ∀ e ∈ (initialize_dependencies (fun t => if t = 1 then [0] else []) 10
        [⟨false, 1, 0, 5, 7⟩, ⟨false, 2, 0, 5, 7⟩,
         ⟨false, 3, 1, 5, 7⟩]).tracker,
       e.1.ty = 0 → some e.1 = lastOfType
         [⟨false, 1, 0, 5, 7⟩, ⟨false, 2, 0, 5, 7⟩, ⟨false, 3, 1, 5, 7⟩] 0) :=
  ⟨⟨by decide, by decide, by decide, by decide, rfl⟩,
   c7_amended_binds_last (fun t => if t = 1 then [0] else []) 10
     ⟨false, 1, 0, 5, 7⟩ [⟨false, 2, 0, 5, 7⟩, ⟨false, 3, 1, 5, 7⟩]
     ⟨false, 1, 0, 5, 7⟩ ⟨false, 2, 0, 5, 7⟩ 0
     (by decide) (by decide) (by decide) (by decide) rfl rfl rfl rfl rfl⟩

/-- C10 witness: a file that fails to read, listed by two different
sections, is opened at most once. -/
theorem c10_corrupt_file_attempted_once_witness :
    ((fun _ : Nat => (none : Option (List Nat))) 9 = none) ∧
    (load_files (fun s => if s = 1 ∨ s = 2 then [9] else [])
        (fun _ => none)
        [⟨false, 1, 0, 1, 0⟩, ⟨false, 2, 0, 2, 0⟩]).attempts.count 9 ≤ 1 :=
  ⟨rfl,
   c10_corrupt_file_attempted_once (fun s => if s = 1 ∨ s = 2 then [9] else [])
     (fun _ => none) [⟨false, 1, 0, 1, 0⟩, ⟨false, 2, 0, 2, 0⟩] 9 rfl⟩
